import Mathlib

/-!
Verification of the diff-and-filter pipeline of `examples/ldns-gen-filter-rr.c`
(the `bloom-ldns` tool): canonical sort-merge set difference of two RRSIG
collections, the staleness predicate, expiration-day bucketing, per-bucket
bloom-filter construction, and TXT-record payload assembly and chunking.

All machine integers of the C source (`uint32_t`) are modelled as `Nat` with
explicit reduction modulo `2^32` where C arithmetic can wrap.  The `double`
false-positive rate is modelled as `ℚ` (only its comparisons against `0` and
its verbatim storage in the filter matter to the program).
-/

/-- Number of values of a `uint32_t`. -/
def u32Mod : Nat := 4294967296

/-- One canonicalized RRSIG record, as the merge walk sees it.  `key` stands
for the canonical wire image of all fields other than the original TTL and the
expiration instant (owner, type, algorithm, labels, inception, key tag, signer,
signature bytes); `origTtl` and `exp` are the two rdata fields the staleness
predicate reads (`ldns_rr_rrsig_origttl`, `ldns_rr_rrsig_expiration`).
`ldns_rr_compare` is a total order on canonical records that inspects the whole
record, so records comparing equal are identical; the model keeps that property
by comparing all three fields. -/
structure Rrsig where
  key : Nat
  origTtl : Nat
  exp : Nat
deriving DecidableEq

/-- The canonical comparator (`ldns_rr_compare` after `ldns_rr2canonical`):
an `int`-valued three-way comparison, negative / zero / positive.  Modelled as
the lexicographic comparison of the record's fields; zero exactly on equal
records, matching the external comparator's contract. -/
def rrCompare (a b : Rrsig) : Int :=
  if a.key < b.key then -1
  else if b.key < a.key then 1
  else if a.origTtl < b.origTtl then -1
  else if b.origTtl < a.origTtl then 1
  else if a.exp < b.exp then -1
  else if b.exp < a.exp then 1
  else 0

/-- Default staleness buffer: `uint32_t exp_buffer_sec = 86400 * 2;`
(ldns-gen-filter-rr.c line 140). -/
def defaultExpBufferSec : Nat := 86400 * 2

/-- The staleness predicate of the `cmp < 0` branch (lines 333-336):
`(current_time + orig_ttl) < rrsig_exp && (current_time + exp_buffer_sec) < rrsig_exp`,
all operands `uint32_t`, so the additions wrap modulo `2^32`. -/
def stale (currentTime expBufferSec : Nat) (r : Rrsig) : Bool :=
  decide ((currentTime + r.origTtl) % u32Mod < r.exp) &&
  decide ((currentTime + expBufferSec) % u32Mod < r.exp)

/-- Disposition of one step of the merge walk over the two sorted collections
(lines 324-378): which branch fired and for which record. -/
inductive Disp where
  /-- `cmp < 0` and the staleness predicate held: `rr1` pushed to the result. -/
  | emitStale
  /-- `cmp < 0` and the staleness predicate failed: `rr1` skipped. -/
  | dropFresh
  /-- `cmp > 0`: `i2++` only, nothing emitted. -/
  | skipB
  /-- `cmp == 0`: present in both, nothing emitted, both cursors advance. -/
  | matched
  /-- second `while` loop (lines 374-378): `B` exhausted, `rr1` pushed
  unconditionally. -/
  | tailEmit
deriving DecidableEq

/-- Inner loop of the merge walk, structurally recursive on the remaining `B`
suffix.  `a :: as` is the remaining `A` suffix and `k` is the continuation for
the walk once the `A` cursor advances (it receives the then-current `B`
suffix). -/
def walkAux (ct buf : Nat) (a : Rrsig) (as : List Rrsig)
    (k : List Rrsig → List (Disp × Rrsig)) : List Rrsig → List (Disp × Rrsig)
  | [] => (Disp.tailEmit, a) :: as.map (fun r => (Disp.tailEmit, r))
  | b :: bs =>
    if rrCompare a b < 0 then
      ((if stale ct buf a then Disp.emitStale else Disp.dropFresh), a) :: k (b :: bs)
    else if 0 < rrCompare a b then
      (Disp.skipB, b) :: walkAux ct buf a as k bs
    else
      (Disp.matched, a) :: k bs

/-- The full merge walk of `main` (lines 319-378): the `while (i1 < c1 && i2 < c2)`
comparison loop followed by the unconditional tail loop `while (i1 < c1)`,
instrumented to record the disposition of every step. -/
def diffEvents (ct buf : Nat) : List Rrsig → List Rrsig → List (Disp × Rrsig)
  | [] => fun _ => []
  | a :: as => fun bs => walkAux ct buf a as (diffEvents ct buf as) bs

/-- Which walk steps push their record into `tmp_rrsigs`: the stale-and-unmatched
branch of the comparison loop and every step of the tail loop. -/
def emitSel (e : Disp × Rrsig) : Option Rrsig :=
  match e.1 with
  | Disp.emitStale => some e.2
  | Disp.tailEmit => some e.2
  | _ => none

/-- The differencer's output (`tmp_rrsigs` as of line 380): the records pushed
by the emitting branches, in push order. -/
def diffOut (ct buf : Nat) (A B : List Rrsig) : List Rrsig :=
  (diffEvents ct buf A B).filterMap emitSel

/-- A collection sorted by the canonical comparator (`ldns_rr_list_sort`). -/
def sortedRecs (l : List Rrsig) : Prop :=
  l.Pairwise (fun a b => rrCompare a b ≤ 0)

instance : DecidablePred sortedRecs := fun l =>
  List.instDecidablePairwise l

/-- Number of occurrences of `x` in a list. -/
def cnt {α : Type} [DecidableEq α] (x : α) : List α → Nat
  | [] => 0
  | y :: ys => (if y = x then 1 else 0) + cnt x ys

/-- UTC day index of a signature's expiration: `exp / 86400` with `uint32_t`
(truncating) division (line 393). -/
def expDay (r : Rrsig) : Nat := r.exp / 86400

/-- Append `r` under key `k` among the buckets: the khash map keeps one
`ldns_rr_list` per present key, a fresh empty list is created for an absent
key, and `ldns_rr_list_push_rr` appends at the end (lines 395-405). -/
def insertBucket : List (Nat × List Rrsig) → Nat → Rrsig → List (Nat × List Rrsig)
  | [], k, r => [(k, [r])]
  | (q, g) :: rest, k, r =>
    if q = k then (q, g ++ [r]) :: rest else (q, g) :: insertBucket rest k r

/-- The Expiration Bucketer (lines 386-406): one pass over `affected_rrsigs`,
appending each record to the bucket of its expiration day. -/
def bucketize (l : List Rrsig) : List (Nat × List Rrsig) :=
  l.foldl (fun m r => insertBucket m (expDay r) r) []

/-- Contents of the bucket keyed `k` (empty when the key is absent). -/
def bucketGet : List (Nat × List Rrsig) → Nat → List Rrsig
  | [], _ => []
  | (q, g) :: rest, k => if q = k then g else bucketGet rest k

/-- Modelled from the spec: the external probabilistic filter (`struct bloom`
of `bloom_filter/bloom.h`, which is not under `src/`), as the builder observes
it — its `(capacity, falsePositiveRate)` parameters and the sequence of byte
strings inserted via `add` (§1 OUT OF SCOPE, §3). -/
structure BloomFilter where
  capacity : Nat
  rate : ℚ
  contents : List (List Nat)
deriving DecidableEq

/-- Modelled from the spec: `bloom_init2(&bloom, entries, error)` of the
external filter library (`bloom_filter/bloom.h` is not under `src/`).
Per §4.3 a non-positive false-positive rate is invalid under the library's
contract and construction fails (nonzero return); otherwise the built filter's
capacity is `max(bucketSize, floorCapacity)` with `floorCapacity = 1000`
(§4.3, §8). -/
def bloomInit2 (entries : Nat) (rate : ℚ) : Option BloomFilter :=
  if rate ≤ 0 then none else some ⟨max entries 1000, rate, []⟩

/-- Modelled from the spec: `bloom_add(&bloom, wire, size)` records the
inserted byte string (§1 interface `add(Filter, bytes)`). -/
def bloomAdd (f : BloomFilter) (w : List Nat) : BloomFilter :=
  { f with contents := f.contents ++ [w] }

/-- One iteration of the per-bucket loop (lines 433-448), threading the filter
and the running `max_exp`.  `max_exp` is updated for every record; the wire
conversion's result gates only the `bloom_add`, and a failed `ldns_rr2wire`
has no `else` branch: nothing is added and nothing is reported. -/
def addSigStep (toWire : Rrsig → Option (List Nat))
    (acc : BloomFilter × Nat) (r : Rrsig) : BloomFilter × Nat :=
  let newMax := max acc.2 r.exp
  match toWire r with
  | some w => (bloomAdd acc.1 w, newMax)
  | none => (acc.1, newMax)

/-- The Filter Builder for one bucket (lines 421-449): `bloom_init2` with the
bucket's record count `rrsig_num` and the operator rate, then the loop over
the bucket's records.  The first component is `none` when `bloom_init2` fails
(which aborts the run); the second is the lines written to the error stream. -/
def buildFilter (toWire : Rrsig → Option (List Nat)) (rate : ℚ)
    (g : List Rrsig) : Option (BloomFilter × Nat) × List String :=
  match bloomInit2 g.length rate with
  | none => (none, ["Error initializing bloom filter"])
  | some f0 => (some (g.foldl (addSigStep toWire) (f0, 0)), [])

/-- Modelled from the spec: `gmtime_r` (libc, outside the repository) — days
since 1970-01-01 to the proleptic Gregorian civil date `(year, month, day)`
in UTC. -/
def daysToCivil (z0 : Nat) : Nat × Nat × Nat :=
  let z := z0 + 719468
  let era := z / 146097
  let doe := z % 146097
  let yoe := (doe - doe / 1460 + doe / 36524 - doe / 146096) / 365
  let y := yoe + era * 400
  let doy := doe - (365 * yoe + yoe / 4 - yoe / 100)
  let mp := (5 * doy + 2) / 153
  let d := doy - (153 * mp + 2) / 5 + 1
  let m := if mp < 10 then mp + 3 else mp - 9
  (if m ≤ 2 then y + 1 else y, m, d)

/-- Zero-padded decimal rendering of minimum width 2 (`%02d`). -/
def pad2 (n : Nat) : String := if n < 10 then "0" ++ toString n else toString n

/-- Zero-padded decimal rendering of minimum width 4 (`%04d`). -/
def pad4 (n : Nat) : String :=
  if n < 10 then "000" ++ toString n
  else if n < 100 then "00" ++ toString n
  else if n < 1000 then "0" ++ toString n
  else toString n

/-- `YYYYMMDD` of a Unix instant under `gmtime` semantics (UTC):
`"%04d%02d%02d"` of year, month, day (lines 472-473). -/
def yyyymmddOf (t : Nat) : String :=
  let c := daysToCivil (t / 86400)
  pad4 c.1 ++ pad2 c.2.1 ++ pad2 c.2.2

/-- `HHMMSS` of a Unix instant under `gmtime` semantics (UTC):
`"%02d%02d%02d"` of `tm_hour`, `tm_min`, `tm_sec` (lines 477-478). -/
def hhmmssOf (t : Nat) : String :=
  let sod := t % 86400
  pad2 (sod / 3600) ++ pad2 (sod % 3600 / 60) ++ pad2 (sod % 60)

/-- The bucket's `max_exp` (lines 432-440): running maximum of the bucket's
expiration instants, starting from `0`. -/
def maxExpOf (g : List Rrsig) : Nat := g.foldl (fun m r => max m r.exp) 0

/-- Owner name of the produced record (lines 461-473):
`"_filter.%04d%02d%02d.%s"` from `gmtime_r` of `max_exp` and the `-d` domain. -/
def ownerNameOf (g : List Rrsig) (domain : String) : String :=
  "_filter." ++ yyyymmddOf (maxExpOf g) ++ "." ++ domain

/-- ASCII header of the payload (lines 476-478):
`"v=%u;s=%02d%02d%02d;a=0;d="` from the version and `gmtime_r` of `max_exp`. -/
def headerOf (version : Nat) (g : List Rrsig) : String :=
  "v=" ++ toString version ++ ";s=" ++ hhmmssOf (maxExpOf g) ++ ";a=0;d="

/-- Modelled from the spec: the in-memory `struct bloom` of the external
filter library (`bloom_filter/bloom.h` is not under `src/`).  Per §3 and §9 it
holds plain numeric parameter fields together with an internal pointer `bf` to
the heap-allocated bit array. -/
structure BloomStruct where
  paramBytes : List Nat
  bfAddr : Nat
  bitArray : List Nat
deriving DecidableEq

/-- The eight stored bytes of a pointer value (64-bit, little endian). -/
def addrBytes (a : Nat) : List Nat :=
  [a % 256, a / 256 % 256, a / 256 ^ 2 % 256, a / 256 ^ 3 % 256,
   a / 256 ^ 4 % 256, a / 256 ^ 5 % 256, a / 256 ^ 6 % 256, a / 256 ^ 7 % 256]

/-- The raw `sizeof(struct bloom)` memory image that line 489 copies with
`memcpy(full_data + header_len, &bloom, sizeof(struct bloom))`: the numeric
parameter fields followed by the stored `bf` pointer value. -/
def structImage (b : BloomStruct) : List Nat :=
  b.paramBytes ++ addrBytes b.bfAddr

/-- The assembled payload `full_data` (lines 480-490): the three `memcpy`
calls in order — header bytes, the raw `struct bloom` image, the bit array. -/
def fullPayload (header : List Nat) (b : BloomStruct) : List Nat :=
  header ++ structImage b ++ b.bitArray

/-- The chunking loop of lines 501-514, with explicit fuel (the loop advances
`offset` by `chunk_size ≥ 1` per iteration, so `payload.length` units
suffice).  Each produced rdata field is the pair of its length byte
`chunk_buf[0] = chunk_size` and its `chunk_size` data bytes. -/
def chunkGo : Nat → List Nat → List (Nat × List Nat)
  | 0, _ => []
  | _, [] => []
  | fuel + 1, x :: xs =>
    (min 255 (x :: xs).length, (x :: xs).take (min 255 (x :: xs).length)) ::
      chunkGo fuel ((x :: xs).drop (min 255 (x :: xs).length))

/-- The ordered TXT rdata fields produced for a payload (lines 501-514). -/
def chunkPayload (payload : List Nat) : List (Nat × List Nat) :=
  chunkGo payload.length payload

/-- Insertion of one record into a list sorted by the canonical comparator. -/
def insertRec (r : Rrsig) : List Rrsig → List Rrsig
  | [] => [r]
  | x :: xs => if rrCompare r x ≤ 0 then r :: x :: xs else x :: insertRec r xs

/-- `ldns_rr_list_sort` (lines 311 and 316): sorting by the canonical
comparator, modelled as insertion sort (the comparator is a total order under
which equal records are identical, so any comparison sort yields this list). -/
def sortRecs : List Rrsig → List Rrsig
  | [] => []
  | x :: xs => insertRec x (sortRecs xs)

/-- Observable events of one run, in program order. -/
inductive Ev where
  /-- `load_rrsigs` opened and parsed zone file `n` (lines 288-305). -/
  | readZone (n : Nat)
  /-- the TXT record of the bucket keyed `day` was written (line 516). -/
  | wroteRecord (day : Nat)
  /-- `bloom_init2` failed; `"Error initializing bloom filter"` printed
  (line 427). -/
  | filterInitError
  /-- `exit(EXIT_FAILURE)` (line 428). -/
  | exitFailure
  /-- `exit(EXIT_SUCCESS)` (line 551). -/
  | exitSuccess
deriving DecidableEq

/-- The per-bucket half of the run (`kh_foreach`, lines 417-540): each bucket
initializes its filter first; a failed `bloom_init2` prints its diagnostic and
exits the process with failure. -/
def processBuckets (rate : ℚ) : List (Nat × List Rrsig) → List Ev
  | [] => [Ev.exitSuccess]
  | (k, g) :: rest =>
    match bloomInit2 g.length rate with
    | none => [Ev.filterInitError, Ev.exitFailure]
    | some _ => Ev.wroteRecord k :: processBuckets rate rest

/-- The run's observable event order (`main`): both zone files are read and
parsed (lines 288-305), the collections are canonicalized, sorted and
differenced (lines 307-384), the difference is bucketed (lines 386-406), and
only then is each bucket's filter initialized and its record written
(lines 417-540).  The `-p` false-positive rate (line 178, `atof`) is never
validated before that per-bucket initialization. -/
def runTrace (rate : ℚ) (ct buf : Nat) (z1 z2 : List Rrsig) : List Ev :=
  [Ev.readZone 1, Ev.readZone 2] ++
    processBuckets rate (bucketize (diffOut ct buf (sortRecs z1) (sortRecs z2)))

-- Comparator facts used throughout: the comparator is zero exactly on equal
-- records, antisymmetric in sign, and transitive.

theorem rrCompare_neg_iff (a b : Rrsig) :
    rrCompare a b < 0 ↔
      a.key < b.key ∨ (a.key = b.key ∧
        (a.origTtl < b.origTtl ∨ (a.origTtl = b.origTtl ∧ a.exp < b.exp))) := by
  unfold rrCompare
  split_ifs <;> constructor <;> intro h <;> omega

theorem rrCompare_eq_zero_iff (a b : Rrsig) : rrCompare a b = 0 ↔ a = b := by
  constructor
  · intro h
    cases a with
    | mk ka ta ea =>
      cases b with
      | mk kb tb eb =>
        unfold rrCompare at h
        dsimp only at h
        simp only [Rrsig.mk.injEq]
        split_ifs at h <;> omega
  · intro h
    subst h
    unfold rrCompare
    simp

theorem rrCompare_antisymm (a b : Rrsig) : rrCompare a b = - rrCompare b a := by
  unfold rrCompare
  split_ifs <;> omega

theorem rrCompare_pos_iff (a b : Rrsig) : 0 < rrCompare a b ↔ rrCompare b a < 0 := by
  rw [rrCompare_antisymm a b]
  omega

theorem rrCompare_lt_of_lt_of_le {a b c : Rrsig}
    (hab : rrCompare a b < 0) (hbc : rrCompare b c ≤ 0) : rrCompare a c < 0 := by
  have hcb : ¬ rrCompare c b < 0 := by
    rw [← rrCompare_pos_iff]
    omega
  rw [rrCompare_neg_iff] at hab hcb ⊢
  omega

theorem rrCompare_ne_of_lt {a b : Rrsig} (h : rrCompare a b < 0) : a ≠ b := by
  intro he
  subst he
  rw [(rrCompare_eq_zero_iff a a).mpr rfl] at h
  omega

-- Step equations of the walk, mirroring the three branches of the C loop.

theorem diffEvents_nil (ct buf : Nat) (B : List Rrsig) :
    diffEvents ct buf [] B = [] := rfl

theorem diffEvents_bnil (ct buf : Nat) (a : Rrsig) (as : List Rrsig) :
    diffEvents ct buf (a :: as) [] =
      (Disp.tailEmit, a) :: as.map (fun r => (Disp.tailEmit, r)) := rfl

theorem diffEvents_lt (ct buf : Nat) {a b : Rrsig} (as bs : List Rrsig)
    (h : rrCompare a b < 0) :
    diffEvents ct buf (a :: as) (b :: bs) =
      ((if stale ct buf a then Disp.emitStale else Disp.dropFresh), a) ::
        diffEvents ct buf as (b :: bs) := by
  show walkAux ct buf a as (diffEvents ct buf as) (b :: bs) = _
  rw [walkAux, if_pos h]

theorem diffEvents_gt (ct buf : Nat) {a b : Rrsig} (as bs : List Rrsig)
    (h : 0 < rrCompare a b) :
    diffEvents ct buf (a :: as) (b :: bs) =
      (Disp.skipB, b) :: diffEvents ct buf (a :: as) bs := by
  show walkAux ct buf a as (diffEvents ct buf as) (b :: bs) = _
  rw [walkAux, if_neg (by omega), if_pos h]
  rfl

theorem diffEvents_eq (ct buf : Nat) {a b : Rrsig} (as bs : List Rrsig)
    (h : rrCompare a b = 0) :
    diffEvents ct buf (a :: as) (b :: bs) =
      (Disp.matched, a) :: diffEvents ct buf as bs := by
  show walkAux ct buf a as (diffEvents ct buf as) (b :: bs) = _
  rw [walkAux, if_neg (by omega), if_neg (by omega)]

-- Counting facts about the walk's dispositions.

theorem cnt_nil {α : Type} [DecidableEq α] (x : α) : cnt x ([] : List α) = 0 := rfl

theorem cnt_cons {α : Type} [DecidableEq α] (x y : α) (l : List α) :
    cnt x (y :: l) = (if y = x then 1 else 0) + cnt x l := rfl

theorem cnt_eq_zero_of_forall_ne {α : Type} [DecidableEq α] {x : α} {l : List α}
    (h : ∀ y ∈ l, y ≠ x) : cnt x l = 0 := by
  induction l with
  | nil => rfl
  | cons y ys ih =>
    rw [cnt_cons, if_neg (h y (by simp)), ih (fun z hz => h z (by simp [hz]))]

theorem cnt_map_tailEmit (d : Disp) (x : Rrsig) (l : List Rrsig) :
    cnt (d, x) (l.map (fun r => (Disp.tailEmit, r))) =
      if d = Disp.tailEmit then cnt x l else 0 := by
  induction l with
  | nil => cases d <;> simp [cnt]
  | cons y ys ih =>
    by_cases hd : d = Disp.tailEmit
    · subst hd
      by_cases hy : y = x
      · simp [cnt_cons, hy, ih]
      · simp [cnt_cons, hy, ih, Prod.mk.injEq]
    · simp [cnt_cons, ih, hd, Ne.symm hd, Prod.mk.injEq]

theorem cnt_eq_zero_of_lt_all {x b : Rrsig} {bs : List Rrsig}
    (hs : sortedRecs (b :: bs)) (hlt : rrCompare x b < 0) : cnt x (b :: bs) = 0 := by
  apply cnt_eq_zero_of_forall_ne
  intro y hy
  rcases List.mem_cons.mp hy with hyb | hy2
  · subst hyb
    exact (rrCompare_ne_of_lt hlt).symm
  · have hb : rrCompare b y ≤ 0 := (List.pairwise_cons.mp hs).1 y hy2
    exact (rrCompare_ne_of_lt (rrCompare_lt_of_lt_of_le hlt hb)).symm

theorem diffEvents_cnt (ct buf : Nat) :
    ∀ (n : Nat) (A B : List Rrsig), A.length + B.length ≤ n →
      sortedRecs A → sortedRecs B → ∀ x : Rrsig,
      cnt (Disp.matched, x) (diffEvents ct buf A B) = min (cnt x A) (cnt x B)
    ∧ cnt (Disp.emitStale, x) (diffEvents ct buf A B)
        + cnt (Disp.dropFresh, x) (diffEvents ct buf A B)
        + cnt (Disp.tailEmit, x) (diffEvents ct buf A B)
        = cnt x A - min (cnt x A) (cnt x B) := by
  intro n
  induction n with
  | zero =>
    intro A B hlen hA hB x
    cases A with
    | nil =>
      cases B with
      | nil => simp [diffEvents_nil, cnt]
      | cons b bs => simp only [List.length_cons, List.length_nil] at hlen; omega
    | cons a as => simp only [List.length_cons] at hlen; omega
  | succ n ih =>
    intro A B hlen hA hB x
    cases A with
    | nil =>
      refine ⟨?_, ?_⟩ <;> simp [diffEvents_nil, cnt]
    | cons a as =>
      have hA2 : sortedRecs as := hA.of_cons
      cases B with
      | nil =>
        rw [diffEvents_bnil]
        by_cases hx : a = x <;>
          simp [cnt_cons, cnt_map_tailEmit, cnt, hx, Prod.mk.injEq]
      | cons b bs =>
        have hB2 : sortedRecs bs := hB.of_cons
        rcases lt_trichotomy (rrCompare a b) 0 with hlt | heq | hgt
        · rw [diffEvents_lt ct buf as bs hlt]
          obtain ⟨ih1, ih2⟩ :=
            ih as (b :: bs) (by simp only [List.length_cons] at hlen ⊢; omega) hA2 hB x
          by_cases hx : a = x
          · subst hx
            have hzero : cnt a (b :: bs) = 0 := cnt_eq_zero_of_lt_all hB hlt
            cases hst : stale ct buf a <;>
              simp [hst, cnt_cons, Prod.mk.injEq, ih1, ih2, hzero] <;> omega
          · cases hst : stale ct buf a <;>
              simp [hst, cnt_cons, Prod.mk.injEq, hx, ih1, ih2]
        · have hab : a = b := (rrCompare_eq_zero_iff a b).mp heq
          subst hab
          rw [diffEvents_eq ct buf as bs heq]
          obtain ⟨ih1, ih2⟩ :=
            ih as bs (by simp only [List.length_cons] at hlen ⊢; omega) hA2 hB2 x
          by_cases hx : a = x
          · subst hx
            simp [cnt_cons, Prod.mk.injEq, ih1, ih2]
            omega
          · simp [cnt_cons, Prod.mk.injEq, hx, ih1, ih2]
        · rw [diffEvents_gt ct buf as bs hgt]
          obtain ⟨ih1, ih2⟩ :=
            ih (a :: as) bs (by simp only [List.length_cons] at hlen ⊢; omega) hA hB2 x
          by_cases hx : b = x
          · subst hx
            have hzero : cnt b (a :: as) = 0 :=
              cnt_eq_zero_of_lt_all hA ((rrCompare_pos_iff a b).mp hgt)
            simp [cnt_cons, Prod.mk.injEq, ih1, ih2, hzero]
          · simp [cnt_cons, Prod.mk.injEq, hx, ih1, ih2]

theorem filterMap_emitSel_tail (l : List Rrsig) :
    (l.map (fun r => (Disp.tailEmit, r))).filterMap emitSel = l := by
  induction l with
  | nil => rfl
  | cons y ys ih =>
    rw [List.map_cons, List.filterMap_cons]
    exact congrArg (List.cons y) ih

/-- Claim C1: at a `cmp<0` step of the merge walk over the canonicalized,
sorted collections, `A[i]` is emitted into the result exactly when the
staleness predicate holds — `now + origTtl < exp` and `now + buffer < exp`
(`uint32_t` arithmetic; the buffer defaults to `2*86400` seconds) — and only
the `A` cursor advances; at a `cmp==0` step the record is never emitted and
both cursors advance; at a `cmp>0` step only the `B` cursor advances and
nothing is emitted. -/
theorem c1_merge_step_behaviour (ct buf : Nat) (a b : Rrsig) (as bs : List Rrsig) :
    (rrCompare a b < 0 →
      diffOut ct buf (a :: as) (b :: bs) =
        (if stale ct buf a then [a] else []) ++ diffOut ct buf as (b :: bs))
  ∧ (rrCompare a b = 0 →
      diffOut ct buf (a :: as) (b :: bs) = diffOut ct buf as bs)
  ∧ (0 < rrCompare a b →
      diffOut ct buf (a :: as) (b :: bs) = diffOut ct buf (a :: as) bs)
  ∧ (ct + a.origTtl < u32Mod → ct + buf < u32Mod →
      (stale ct buf a = true ↔ ct + a.origTtl < a.exp ∧ ct + buf < a.exp))
  ∧ defaultExpBufferSec = 2 * 86400 := by
  refine ⟨?_, ?_, ?_, ?_, by decide⟩
  · intro h
    rw [diffOut, diffEvents_lt ct buf as bs h]
    cases hst : stale ct buf a <;>
      simp [hst, emitSel, diffOut, List.filterMap_cons]
  · intro h
    rw [diffOut, diffEvents_eq ct buf as bs h]
    simp [emitSel, diffOut, List.filterMap_cons]
  · intro h
    rw [diffOut, diffEvents_gt ct buf as bs h]
    simp [emitSel, diffOut, List.filterMap_cons]
  · intro h1 h2
    unfold stale
    rw [Nat.mod_eq_of_lt h1, Nat.mod_eq_of_lt h2]
    simp

/-- `c1_merge_step_behaviour` instantiated: an unmatched stale record is
emitted, an equal pair is suppressed, a `cmp>0` step only advances the `B`
cursor, and the staleness predicate evaluates as stated. -/
theorem c1_merge_step_behaviour_witness :
    diffOut 0 0 [⟨1, 10, 200⟩] [⟨2, 0, 0⟩] = [⟨1, 10, 200⟩]
  ∧ diffOut 0 0 [⟨2, 0, 0⟩] [⟨2, 0, 0⟩] = []
  ∧ diffOut 0 0 [⟨3, 0, 0⟩] [⟨2, 0, 0⟩] = [⟨3, 0, 0⟩]
  ∧ stale 0 0 ⟨1, 10, 200⟩ = true := by
  refine ⟨?_, ?_, ?_, ?_⟩
  · rw [(c1_merge_step_behaviour 0 0 ⟨1, 10, 200⟩ ⟨2, 0, 0⟩ [] []).1 (by decide)]
    decide
  · rw [(c1_merge_step_behaviour 0 0 ⟨2, 0, 0⟩ ⟨2, 0, 0⟩ [] []).2.1 (by decide)]
    rfl
  · rw [(c1_merge_step_behaviour 0 0 ⟨3, 0, 0⟩ ⟨2, 0, 0⟩ [] []).2.2.1 (by decide)]
    decide
  · exact ((c1_merge_step_behaviour 0 0 ⟨1, 10, 200⟩ ⟨2, 0, 0⟩ [] []).2.2.2.1
      (by decide) (by decide)).mpr ⟨by decide, by decide⟩

/-- Claim C4: once the `B` cursor has reached the end of the sorted newer
collection, every remaining element of `A` is emitted into the result
unconditionally — no staleness predicate is applied to tail elements. -/
theorem c4_tail_emitted_unconditionally (ct buf : Nat) (as : List Rrsig) :
    diffOut ct buf as [] = as := by
  cases as with
  | nil => rfl
  | cons a as2 =>
    rw [diffOut, diffEvents_bnil, List.filterMap_cons]
    exact congrArg (List.cons a) (filterMap_emitSel_tail as2)

/-- Claim C9: over sorted collections the merge walk matches canonically-equal
copies one-to-one: for any record value, the number of `cmp==0` suppressions
equals `min(count in A, count in B)`, and the remaining `count in A − min`
copies each take an unmatched path (the staleness test before `B` is
exhausted, or the unconditional tail emission after it), so a duplicated
record can be emitted into the result more than once. -/
theorem c9_one_to_one_matching (ct buf : Nat) (A B : List Rrsig)
    (hA : sortedRecs A) (hB : sortedRecs B) (x : Rrsig) :
    cnt (Disp.matched, x) (diffEvents ct buf A B) = min (cnt x A) (cnt x B)
  ∧ cnt (Disp.emitStale, x) (diffEvents ct buf A B)
      + cnt (Disp.dropFresh, x) (diffEvents ct buf A B)
      + cnt (Disp.tailEmit, x) (diffEvents ct buf A B)
      = cnt x A - min (cnt x A) (cnt x B) :=
  diffEvents_cnt ct buf (A.length + B.length) A B le_rfl hA hB x

/-- `c9_one_to_one_matching` at `A = [x, x]`, `B = [x]` (one copy suppressed,
one through the unmatched path); and the walk emitting a duplicated stale
record twice at `A = [x, x]`, `B = [y]`. -/
theorem c9_one_to_one_matching_witness :
    (cnt (Disp.matched, (⟨1, 0, 500⟩ : Rrsig))
        (diffEvents 0 0 [⟨1, 0, 500⟩, ⟨1, 0, 500⟩] [⟨1, 0, 500⟩])
      = min (cnt (⟨1, 0, 500⟩ : Rrsig) [⟨1, 0, 500⟩, ⟨1, 0, 500⟩])
          (cnt (⟨1, 0, 500⟩ : Rrsig) [⟨1, 0, 500⟩])
    ∧ cnt (Disp.emitStale, (⟨1, 0, 500⟩ : Rrsig))
          (diffEvents 0 0 [⟨1, 0, 500⟩, ⟨1, 0, 500⟩] [⟨1, 0, 500⟩])
        + cnt (Disp.dropFresh, (⟨1, 0, 500⟩ : Rrsig))
            (diffEvents 0 0 [⟨1, 0, 500⟩, ⟨1, 0, 500⟩] [⟨1, 0, 500⟩])
        + cnt (Disp.tailEmit, (⟨1, 0, 500⟩ : Rrsig))
            (diffEvents 0 0 [⟨1, 0, 500⟩, ⟨1, 0, 500⟩] [⟨1, 0, 500⟩])
      = cnt (⟨1, 0, 500⟩ : Rrsig) [⟨1, 0, 500⟩, ⟨1, 0, 500⟩]
          - min (cnt (⟨1, 0, 500⟩ : Rrsig) [⟨1, 0, 500⟩, ⟨1, 0, 500⟩])
              (cnt (⟨1, 0, 500⟩ : Rrsig) [⟨1, 0, 500⟩]))
  ∧ diffOut 0 0 [⟨1, 0, 500⟩, ⟨1, 0, 500⟩] [⟨2, 0, 0⟩] = [⟨1, 0, 500⟩, ⟨1, 0, 500⟩] :=
  ⟨c9_one_to_one_matching 0 0 [⟨1, 0, 500⟩, ⟨1, 0, 500⟩] [⟨1, 0, 500⟩]
      (by decide) (by decide) ⟨1, 0, 500⟩,
    by decide⟩

-- Bucketing invariants: contents of a bucket after one insertion, and after
-- the whole fold.

theorem bucketGet_insertBucket (m : List (Nat × List Rrsig)) (k0 k : Nat) (r : Rrsig) :
    bucketGet (insertBucket m k0 r) k
      = bucketGet m k ++ (if k0 = k then [r] else []) := by
  induction m with
  | nil =>
    rw [insertBucket]
    by_cases h : k0 = k <;> simp [bucketGet, h]
  | cons qg rest ih =>
    obtain ⟨q, g⟩ := qg
    rw [insertBucket]
    by_cases h1 : q = k0
    · rw [if_pos h1]
      subst h1
      by_cases h2 : q = k
      · subst h2
        simp [bucketGet]
      · simp [bucketGet, h2]
    · rw [if_neg h1]
      by_cases h2 : q = k
      · have h3 : ¬ k0 = k := fun he => h1 (h2.trans he.symm)
        simp [bucketGet, h2, h3]
      · simp [bucketGet, h2, ih]

theorem bucketGet_foldl (l : List Rrsig) :
    ∀ (m : List (Nat × List Rrsig)) (k : Nat),
      bucketGet (l.foldl (fun m r => insertBucket m (expDay r) r) m) k
        = bucketGet m k ++ l.filter (fun r => expDay r = k) := by
  induction l with
  | nil => intro m k; simp
  | cons r l2 ih =>
    intro m k
    rw [List.foldl_cons, ih, bucketGet_insertBucket]
    by_cases h : expDay r = k
    · simp [List.filter_cons, h]
    · simp [List.filter_cons, h]

theorem keys_insertBucket (m : List (Nat × List Rrsig)) (k0 : Nat) (r : Rrsig) :
    (insertBucket m k0 r).map Prod.fst
      = if k0 ∈ m.map Prod.fst then m.map Prod.fst else m.map Prod.fst ++ [k0] := by
  induction m with
  | nil => simp [insertBucket]
  | cons qg rest ih =>
    obtain ⟨q, g⟩ := qg
    rw [insertBucket]
    by_cases h1 : q = k0
    · subst h1
      simp
    · rw [if_neg h1]
      by_cases h2 : k0 ∈ rest.map Prod.fst
      · simp [ih, h2, Ne.symm h1]
      · simp [ih, h2, Ne.symm h1]

theorem nodup_keys_foldl (l : List Rrsig) :
    ∀ (m : List (Nat × List Rrsig)), (m.map Prod.fst).Nodup →
      ((l.foldl (fun m r => insertBucket m (expDay r) r) m).map Prod.fst).Nodup := by
  induction l with
  | nil => intro m hm; simpa using hm
  | cons r l2 ih =>
    intro m hm
    rw [List.foldl_cons]
    apply ih
    rw [keys_insertBucket]
    by_cases h : expDay r ∈ m.map Prod.fst
    · simpa [h] using hm
    · rw [if_neg h]
      simp [List.nodup_append, hm, h]

theorem bucketGet_of_mem {m : List (Nat × List Rrsig)} {k : Nat} {g : List Rrsig}
    (hnd : (m.map Prod.fst).Nodup) (hm : (k, g) ∈ m) : bucketGet m k = g := by
  induction m with
  | nil => cases hm
  | cons qg rest ih =>
    obtain ⟨q, g0⟩ := qg
    rcases List.mem_cons.mp hm with he | hr
    · rw [Prod.mk.injEq] at he
      rw [bucketGet, if_pos he.1.symm]
      exact he.2.symm
    · have hk : k ∈ rest.map Prod.fst := by
        have := List.mem_map_of_mem Prod.fst hr
        simpa using this
      have hq : ¬ q = k := by
        intro he
        subst he
        exact (List.nodup_cons.mp (by simpa using hnd)).1 hk
      rw [bucketGet, if_neg hq]
      exact ih (List.nodup_cons.mp (by simpa using hnd)).2 hr

/-- Claim C7: bucketing is a partition of the differencer's output — for every
day key, the bucket's contents are exactly the input records whose expiration
day (`exp / 86400`) is that key, in input order (so each record occurrence
lands in exactly one bucket, exactly once); bucket keys are unique; each
bucket entry's contents are what its key looks up; and the empty input yields
the empty mapping rather than an error. -/
theorem c7_bucketize_partition (l : List Rrsig) :
    (∀ k, bucketGet (bucketize l) k = l.filter (fun r => expDay r = k))
  ∧ ((bucketize l).map Prod.fst).Nodup
  ∧ (∀ p ∈ bucketize l, bucketGet (bucketize l) p.1 = p.2)
  ∧ bucketize ([] : List Rrsig) = [] := by
  refine ⟨?_, ?_, ?_, rfl⟩
  · intro k
    rw [bucketize, bucketGet_foldl]
    rfl
  · exact nodup_keys_foldl l [] (by simp)
  · intro p hp
    exact bucketGet_of_mem (nodup_keys_foldl l [] (by simp)) (by simpa using hp)

/-- `c7_bucketize_partition` at a three-record input spanning two expiration
days: day-1 records in input order, the day-0 record alone, and the entry
lookup discharged at a concrete bucket. -/
theorem c7_bucketize_partition_witness :
    bucketGet (bucketize [⟨1, 0, 86400⟩, ⟨2, 0, 100⟩, ⟨3, 0, 86500⟩]) 1
      = [⟨1, 0, 86400⟩, ⟨3, 0, 86500⟩]
  ∧ bucketGet (bucketize [⟨1, 0, 86400⟩, ⟨2, 0, 100⟩, ⟨3, 0, 86500⟩]) 0
      = [⟨2, 0, 100⟩]
  ∧ bucketGet (bucketize [⟨1, 0, 86400⟩, ⟨2, 0, 100⟩, ⟨3, 0, 86500⟩]) 0
      = ((0 : Nat), [(⟨2, 0, 100⟩ : Rrsig)]).2 := by
  refine ⟨?_, ?_, ?_⟩
  · rw [(c7_bucketize_partition [⟨1, 0, 86400⟩, ⟨2, 0, 100⟩, ⟨3, 0, 86500⟩]).1 1]
    decide
  · rw [(c7_bucketize_partition [⟨1, 0, 86400⟩, ⟨2, 0, 100⟩, ⟨3, 0, 86500⟩]).1 0]
    decide
  · exact (c7_bucketize_partition [⟨1, 0, 86400⟩, ⟨2, 0, 100⟩, ⟨3, 0, 86500⟩]).2.2.1
      ((0 : Nat), [(⟨2, 0, 100⟩ : Rrsig)]) (by decide)

-- Chunking: the loop's invariant over its fuel.

theorem chunkGo_spec :
    ∀ (fuel : Nat) (l : List Nat), l.length ≤ fuel →
      ((chunkGo fuel l).map Prod.snd).flatten = l
    ∧ (∀ c ∈ chunkGo fuel l, c.1 = c.2.length ∧ c.2.length ≤ 255)
    ∧ (chunkGo fuel l).length = (l.length + 254) / 255 := by
  intro fuel
  induction fuel with
  | zero =>
    intro l hl
    have hnil : l = [] := List.eq_nil_of_length_eq_zero (by omega)
    subst hnil
    simp [chunkGo]
  | succ fuel ih =>
    intro l hl
    cases l with
    | nil => simp [chunkGo]
    | cons x xs =>
      rw [chunkGo]
      have hdl : ((x :: xs).drop (min 255 (x :: xs).length)).length
          = (x :: xs).length - min 255 (x :: xs).length := by
        rw [List.length_drop]
      obtain ⟨ihj, ihb, ihc⟩ := ih ((x :: xs).drop (min 255 (x :: xs).length))
        (by rw [hdl]; simp only [List.length_cons] at hl ⊢; omega)
      refine ⟨?_, ?_, ?_⟩
      · show (((x :: xs).take (min 255 (x :: xs).length)) ::
            (chunkGo fuel ((x :: xs).drop (min 255 (x :: xs).length))).map Prod.snd).flatten
          = x :: xs
        rw [List.flatten_cons, ihj]
        exact List.take_append_drop _ _
      · intro c hc
        rcases List.mem_cons.mp hc with he | hr
        · subst he
          refine ⟨?_, ?_⟩
          · show min 255 (x :: xs).length
              = ((x :: xs).take (min 255 (x :: xs).length)).length
            rw [List.length_take]
            omega
          · show ((x :: xs).take (min 255 (x :: xs).length)).length ≤ 255
            rw [List.length_take]
            omega
        · exact ihb c hr
      · rw [List.length_cons, ihc, hdl]
        simp only [List.length_cons]
        omega

/-- Claim C3: the TXT rdata character-strings produced for the payload
`header || serializedFilter`, concatenated in order, reconstruct exactly that
payload; every chunk carries at most 255 data bytes and its length byte equals
its own data length; and the number of chunks is `⌈payloadLength / 255⌉`
(as naturals, `(payloadLength + 254) / 255`). -/
theorem c3_chunking_roundtrip (header serialized : List Nat) :
    ((chunkPayload (header ++ serialized)).map Prod.snd).flatten = header ++ serialized
  ∧ (∀ c ∈ chunkPayload (header ++ serialized), c.1 = c.2.length ∧ c.2.length ≤ 255)
  ∧ (chunkPayload (header ++ serialized)).length
      = ((header ++ serialized).length + 254) / 255 :=
  chunkGo_spec (header ++ serialized).length (header ++ serialized) le_rfl

/-- `c3_chunking_roundtrip` on the 3-byte payload `[1,2] ++ [3]`: the chunks
re-join to the payload, there is `⌈3/255⌉ = 1` chunk, and its length byte and
size bound are discharged concretely. -/
theorem c3_chunking_roundtrip_witness :
    ((chunkPayload ([1, 2] ++ [3])).map Prod.snd).flatten = [1, 2] ++ [3]
  ∧ (chunkPayload ([1, 2] ++ [3])).length = 1
  ∧ (3, ([1, 2] ++ [3]).take 3).1 = (3, ([1, 2] ++ [3]).take 3).2.length
  ∧ (3, ([1, 2] ++ [3]).take 3).2.length ≤ 255 := by
  obtain ⟨h1, h2, h3⟩ := c3_chunking_roundtrip [1, 2] [3]
  refine ⟨h1, ?_, ?_, ?_⟩
  · rw [h3]
    decide
  · exact (h2 (3, ([1, 2] ++ [3]).take 3) (by decide)).1
  · exact (h2 (3, ([1, 2] ++ [3]).take 3) (by decide)).2

-- Naming and header: `%02d` renders any value below 100 as exactly two
-- ASCII digits, and `max_exp` is the true maximum of the bucket.

theorem pad2_two_digits :
    ∀ n : Nat, n < 100 →
      (pad2 n).length = 2 ∧ (pad2 n).toList.all Char.isDigit = true := by
  decide

theorem foldl_max_le_init (g : List Rrsig) :
    ∀ m : Nat, m ≤ g.foldl (fun acc r => max acc r.exp) m := by
  induction g with
  | nil => intro m; exact le_rfl
  | cons a g2 ih =>
    intro m
    exact le_trans (le_max_left m a.exp) (ih (max m a.exp))

theorem exp_le_foldl_max (g : List Rrsig) :
    ∀ (m : Nat) (r : Rrsig), r ∈ g →
      r.exp ≤ g.foldl (fun acc r => max acc r.exp) m := by
  induction g with
  | nil => intro m r hr; cases hr
  | cons a g2 ih =>
    intro m r hr
    rcases List.mem_cons.mp hr with he | hr2
    · subst he
      exact le_trans (le_max_right m r.exp) (foldl_max_le_init g2 (max m r.exp))
    · exact ih (max m a.exp) r hr2

theorem foldl_max_mem (g : List Rrsig) :
    ∀ m : Nat, g.foldl (fun acc r => max acc r.exp) m = m
      ∨ g.foldl (fun acc r => max acc r.exp) m ∈ g.map Rrsig.exp := by
  induction g with
  | nil => intro m; exact Or.inl rfl
  | cons a g2 ih =>
    intro m
    rcases ih (max m a.exp) with h | h
    · rcases Nat.le_total m a.exp with hma | ham
      · right
        rw [List.map_cons]
        have : g2.foldl (fun acc r => max acc r.exp) (max m a.exp) = a.exp := by
          rw [h, Nat.max_eq_right hma]
        exact this ▸ List.mem_cons_self _ _
      · left
        show g2.foldl (fun acc r => max acc r.exp) (max m a.exp) = m
        rw [h, Nat.max_eq_left ham]
    · right
      rw [List.map_cons]
      exact List.mem_cons_of_mem _ h

theorem maxExpOf_mem {g : List Rrsig} (hg : g ≠ []) : maxExpOf g ∈ g.map Rrsig.exp := by
  rcases foldl_max_mem g 0 with h | h
  · obtain ⟨r0, hr0⟩ := List.exists_mem_of_ne_nil g hg
    have h1 : r0.exp ≤ maxExpOf g := exp_le_foldl_max g 0 r0 hr0
    have h3 : r0.exp = maxExpOf g := by
      have h2 : maxExpOf g = 0 := h
      omega
    rw [← h3]
    exact List.mem_map_of_mem Rrsig.exp hr0
  · exact h

theorem string_toList_append (s t : String) :
    (s ++ t).toList = s.toList ++ t.toList := by
  simp [String.toList]

theorem hhmmssOf_six_digits (t : Nat) :
    (hhmmssOf t).length = 6 ∧ (hhmmssOf t).toList.all Char.isDigit = true := by
  have hh : t % 86400 / 3600 < 100 := by omega
  have hm : t % 86400 % 3600 / 60 < 100 := by omega
  have hs : t % 86400 % 60 < 100 := by omega
  obtain ⟨lh, dh⟩ := pad2_two_digits _ hh
  obtain ⟨lm, dm⟩ := pad2_two_digits _ hm
  obtain ⟨ls, ds⟩ := pad2_two_digits _ hs
  constructor
  · show (pad2 (t % 86400 / 3600) ++ pad2 (t % 86400 % 3600 / 60)
        ++ pad2 (t % 86400 % 60)).length = 6
    rw [String.length_append, String.length_append, lh, lm, ls]
  · show ((pad2 (t % 86400 / 3600) ++ pad2 (t % 86400 % 3600 / 60)
        ++ pad2 (t % 86400 % 60)).toList.all Char.isDigit) = true
    rw [string_toList_append, string_toList_append, List.all_append,
      List.all_append, dh, dm, ds]
    rfl

/-- Claim C8: for every nonempty bucket, the produced record's owner name is
the string `_filter.<YYYYMMDD>.<domain>` and the header's time field
`<HHMMSS>` consists of six zero-padded ASCII digits, where `YYYYMMDD` and
`HHMMSS` are the civil date and time-of-day of the bucket's `max_exp` under
`gmtime` (UTC, not local time) semantics, and `max_exp` is the maximum
expiration instant over the bucket's signatures. -/
theorem c8_owner_name_and_header (g : List Rrsig) (domain : String)
    (version : Nat) (hg : g ≠ []) :
    ownerNameOf g domain = "_filter." ++ yyyymmddOf (maxExpOf g) ++ "." ++ domain
  ∧ yyyymmddOf (maxExpOf g)
      = pad4 (daysToCivil (maxExpOf g / 86400)).1
        ++ pad2 (daysToCivil (maxExpOf g / 86400)).2.1
        ++ pad2 (daysToCivil (maxExpOf g / 86400)).2.2
  ∧ headerOf version g
      = "v=" ++ toString version ++ ";s=" ++ hhmmssOf (maxExpOf g) ++ ";a=0;d="
  ∧ hhmmssOf (maxExpOf g)
      = pad2 (maxExpOf g % 86400 / 3600) ++ pad2 (maxExpOf g % 86400 % 3600 / 60)
        ++ pad2 (maxExpOf g % 86400 % 60)
  ∧ (hhmmssOf (maxExpOf g)).length = 6
  ∧ (hhmmssOf (maxExpOf g)).toList.all Char.isDigit = true
  ∧ (∀ r ∈ g, r.exp ≤ maxExpOf g)
  ∧ maxExpOf g ∈ g.map Rrsig.exp :=
  ⟨rfl, rfl, rfl, rfl, (hhmmssOf_six_digits _).1, (hhmmssOf_six_digits _).2,
    fun r hr => exp_le_foldl_max g 0 r hr, maxExpOf_mem hg⟩

/-- `c8_owner_name_and_header` at a one-record bucket expiring at Unix second
`1700000000` (2023-11-14 22:13:20 UTC): the owner name and header evaluate to
the UTC strings, the time field is six digits, and the maximum is attained. -/
theorem c8_owner_name_and_header_witness :
    ownerNameOf [⟨1, 0, 1700000000⟩] "example.org." = "_filter.20231114.example.org."
  ∧ headerOf 0 [⟨1, 0, 1700000000⟩] = "v=0;s=221320;a=0;d="
  ∧ (hhmmssOf (maxExpOf [⟨1, 0, 1700000000⟩])).length = 6
  ∧ (⟨1, 0, 1700000000⟩ : Rrsig).exp ≤ maxExpOf [⟨1, 0, 1700000000⟩] := by
  obtain ⟨h1, h2, h3, h4, h5, h6, h7, h8⟩ :=
    c8_owner_name_and_header [⟨1, 0, 1700000000⟩] "example.org." 0 (by decide)
  exact ⟨by decide, by decide, h5, h7 ⟨1, 0, 1700000000⟩ (by decide)⟩

-- Filter construction: the per-bucket fold only appends successful wire
-- conversions to the filter's contents, and tracks the running maximum.

theorem foldl_addSigStep (toWire : Rrsig → Option (List Nat)) (g : List Rrsig) :
    ∀ (f0 : BloomFilter) (m0 : Nat),
      (g.foldl (addSigStep toWire) (f0, m0)).1.capacity = f0.capacity
    ∧ (g.foldl (addSigStep toWire) (f0, m0)).1.rate = f0.rate
    ∧ (g.foldl (addSigStep toWire) (f0, m0)).1.contents
        = f0.contents ++ g.filterMap toWire
    ∧ (g.foldl (addSigStep toWire) (f0, m0)).2
        = g.foldl (fun m r => max m r.exp) m0 := by
  induction g with
  | nil =>
    intro f0 m0
    exact ⟨rfl, rfl, by simp, rfl⟩
  | cons r g2 ih =>
    intro f0 m0
    simp only [List.foldl_cons]
    cases hw : toWire r with
    | some w =>
      have hstep : addSigStep toWire (f0, m0) r = (bloomAdd f0 w, max m0 r.exp) := by
        simp [addSigStep, hw]
      rw [hstep]
      obtain ⟨p1, p2, p3, p4⟩ := ih (bloomAdd f0 w) (max m0 r.exp)
      refine ⟨p1, p2, ?_, p4⟩
      rw [p3]
      simp [bloomAdd, List.filterMap_cons, hw]
    | none =>
      have hstep : addSigStep toWire (f0, m0) r = (f0, max m0 r.exp) := by
        simp [addSigStep, hw]
      rw [hstep]
      obtain ⟨p1, p2, p3, p4⟩ := ih f0 (max m0 r.exp)
      refine ⟨p1, p2, ?_, p4⟩
      rw [p3]
      simp [List.filterMap_cons, hw]

/-- Claim C6 (filter library modelled from the spec): for every bucket, when
the operator rate is valid (`> 0`), the bucket's probabilistic filter is
created with capacity `max(bucketSize, floorCapacity)` where
`floorCapacity = 1000`, and with the operator-supplied false-positive rate. -/
theorem c6_capacity_floor (toWire : Rrsig → Option (List Nat)) (rate : ℚ)
    (g : List Rrsig) (hrate : 0 < rate) :
    ∃ fl maxExp, (buildFilter toWire rate g).1 = some (fl, maxExp)
      ∧ fl.capacity = max g.length 1000
      ∧ fl.rate = rate := by
  have hinit : bloomInit2 g.length rate = some ⟨max g.length 1000, rate, []⟩ := by
    rw [bloomInit2, if_neg (not_le.mpr hrate)]
  refine ⟨(g.foldl (addSigStep toWire) (⟨max g.length 1000, rate, []⟩, 0)).1,
    (g.foldl (addSigStep toWire) (⟨max g.length 1000, rate, []⟩, 0)).2, ?_, ?_, ?_⟩
  · simp only [buildFilter, hinit]
  · exact (foldl_addSigStep toWire g ⟨max g.length 1000, rate, []⟩ 0).1
  · exact (foldl_addSigStep toWire g ⟨max g.length 1000, rate, []⟩ 0).2.1

/-- `c6_capacity_floor` at a one-record bucket with rate `1`: its filter is
created, has the floored capacity and carries the given rate. -/
theorem c6_capacity_floor_witness :
    ∃ fl maxExp,
      (buildFilter (fun r => some [r.exp]) 1 [⟨1, 0, 5⟩]).1 = some (fl, maxExp)
      ∧ fl.capacity = max ([(⟨1, 0, 5⟩ : Rrsig)] : List Rrsig).length 1000
      ∧ fl.rate = 1 :=
  c6_capacity_floor (fun r => some [r.exp]) 1 [⟨1, 0, 5⟩] (by decide)

/-- Claim C10: a bucketed record whose wire conversion fails is silently
omitted from the bucket's filter — the filter's contents are exactly the
successful conversions, no error-stream diagnostic is produced and the run
continues — while the record still counts toward the filter's capacity
(computed from the bucket's full record count before the loop) and still
participates in the bucket's `max_exp`. -/
theorem c10_wire_failure_silent (toWire : Rrsig → Option (List Nat)) (rate : ℚ)
    (g : List Rrsig) (hrate : 0 < rate) :
    ∃ fl maxExp, buildFilter toWire rate g = (some (fl, maxExp), [])
      ∧ fl.contents = g.filterMap toWire
      ∧ fl.capacity = max g.length 1000
      ∧ maxExp = g.foldl (fun m r => max m r.exp) 0 := by
  have hinit : bloomInit2 g.length rate = some ⟨max g.length 1000, rate, []⟩ := by
    rw [bloomInit2, if_neg (not_le.mpr hrate)]
  obtain ⟨p1, p2, p3, p4⟩ :=
    foldl_addSigStep toWire g ⟨max g.length 1000, rate, []⟩ 0
  refine ⟨(g.foldl (addSigStep toWire) (⟨max g.length 1000, rate, []⟩, 0)).1,
    (g.foldl (addSigStep toWire) (⟨max g.length 1000, rate, []⟩, 0)).2,
    ?_, ?_, p1, p4⟩
  · simp only [buildFilter, hinit]
  · rw [p3]
    simp

/-- `c10_wire_failure_silent` at a two-record bucket whose wire conversion
fails on the first record: the filter holds only the second record's bytes,
no diagnostic is produced, yet the capacity floor is computed from both
records and `max_exp` still sees both. -/
theorem c10_wire_failure_silent_witness :
    (∃ fl maxExp,
      buildFilter (fun r => if r.exp = 5 then none else some [r.exp]) 1
          [⟨1, 0, 5⟩, ⟨2, 0, 9⟩] = (some (fl, maxExp), [])
      ∧ fl.contents = ([⟨1, 0, 5⟩, ⟨2, 0, 9⟩] : List Rrsig).filterMap
          (fun r => if r.exp = 5 then none else some [r.exp])
      ∧ fl.capacity = max ([⟨1, 0, 5⟩, ⟨2, 0, 9⟩] : List Rrsig).length 1000
      ∧ maxExp = ([⟨1, 0, 5⟩, ⟨2, 0, 9⟩] : List Rrsig).foldl (fun m r => max m r.exp) 0)
  ∧ buildFilter (fun r => if r.exp = 5 then none else some [r.exp]) 1
        [⟨1, 0, 5⟩, ⟨2, 0, 9⟩] = (some (⟨1000, 1, [[9]]⟩, 9), []) :=
  ⟨c10_wire_failure_silent (fun r => if r.exp = 5 then none else some [r.exp]) 1
      [⟨1, 0, 5⟩, ⟨2, 0, 9⟩] (by decide),
    by decide⟩

/-- Claim C2 is violated by the code: line 489 copies the raw
`sizeof(struct bloom)` memory image into the payload between the header and
the bit array, and that image embeds the process-local `bf` pointer — two
filters identical except for the bit array's heap address serialize to
different blobs, so the blob does not consist only of numeric parameter
fields and the bit array. -/
theorem c2_payload_embeds_pointer :
    structImage ⟨[1, 2], 57005, [7]⟩ = [1, 2] ++ addrBytes 57005
  ∧ fullPayload [] ⟨[1, 2], 57005, [7]⟩ ≠ fullPayload [] ⟨[1, 2], 48879, [7]⟩ :=
  ⟨rfl, by decide⟩

/-- Claim C5 is false on the code: with the non-positive rate `-1`, the run
still reads both zone files.  The `-p` value is parsed by `atof` with no
validation; the rate is first examined at the first bucket's `bloom_init2`,
after both files have been read and differenced. -/
theorem c5_rate_not_rejected_before_reads :
    ((-1 : ℚ) ≤ 0)
  ∧ Ev.readZone 1 ∈ runTrace (-1) 0 0 [⟨1, 0, 999999999⟩] []
  ∧ Ev.readZone 2 ∈ runTrace (-1) 0 0 [⟨1, 0, 999999999⟩] [] :=
  ⟨by decide, by decide, by decide⟩

/-- Claim C5, amended: a non-positive false-positive rate is not rejected at
configuration time and does not prevent reading the inputs; both zone files
are read, and the run aborts with the filter-initialization error when the
first bucket's filter is created — or exits successfully when the difference
produces no bucket at all. -/
theorem c5_amended_rate_checked_at_filter_init (rate : ℚ) (ct buf : Nat)
    (z1 z2 : List Rrsig) (hrate : rate ≤ 0) :
    runTrace rate ct buf z1 z2
      = [Ev.readZone 1, Ev.readZone 2] ++
          (if bucketize (diffOut ct buf (sortRecs z1) (sortRecs z2)) = []
            then [Ev.exitSuccess]
            else [Ev.filterInitError, Ev.exitFailure]) := by
  rw [runTrace]
  rcases hb : bucketize (diffOut ct buf (sortRecs z1) (sortRecs z2)) with _ | ⟨⟨k, g⟩, rest⟩
  · rw [if_pos rfl]
    rfl
  · rw [if_neg (List.cons_ne_nil _ _), processBuckets, bloomInit2, if_pos hrate]

/-- `c5_amended_rate_checked_at_filter_init` at rate `-1` with one stale
record: the trace is exactly both reads followed by the filter-init failure. -/
theorem c5_amended_witness :
    runTrace (-1) 0 0 [⟨1, 0, 999999999⟩] []
      = [Ev.readZone 1, Ev.readZone 2, Ev.filterInitError, Ev.exitFailure] := by
  rw [c5_amended_rate_checked_at_filter_init (-1) 0 0 [⟨1, 0, 999999999⟩] [] (by decide)]
  decide
